import Mathlib

/-!
Verification of `map_cleaner.py` (Project Zomboid map cleaner).

The development shallowly embeds the program:
* Python `bytes` buffers become `List Nat` (one entry per byte value);
* the mutable `BinaryReader` becomes a structure threaded explicitly, each
  operation returning the Python result (`Except PyError α`, since the reader
  raises `ValueError`) together with the post-call reader state;
* Python strings produced by `read_string` are modelled by their decoded byte
  content truncated at the first NUL byte (both the UTF-8 and the Latin-1
  decoding branch of the source map the byte 0 to the character `'\0'` and no
  other byte participates in it, so truncation at the first zero byte is
  exactly the source's truncation at the first `'\0'` character);
* the filesystem touched by `delete_files_in_area` becomes a list of the
  relative path strings that currently exist, and the deletion helper removes
  paths from it (an `unlink` failure, which the source catches and then still
  records the key, is modelled as a successful removal);
* `load_safehouses` takes the contents of `map_meta.bin` directly (the source
  reads the file itself; a missing file yields the empty list and is modelled
  by the `Option Bytes` argument of the sweep).
-/

namespace MapCleaner

/-- Python `bytes`: a list of byte values. -/
abbrev Bytes := List Nat

/-- The only exception the reader raises (`ValueError`, also covering the
`struct.error` it converts). -/
inductive PyError where
  | valueError
deriving DecidableEq

/-- `Region` from `map_cleaner.py`: a rectangle with `from` and `to` corners. -/
structure Region where
  from_x : Int
  from_y : Int
  to_x : Int
  to_y : Int
deriving DecidableEq

/-- `Region.contains_point`: `self.from_x <= x < self.to_x and self.from_y <= y < self.to_y`. -/
def Region.contains_point (r : Region) (x y : Int) : Bool :=
  decide (r.from_x ≤ x) && decide (x < r.to_x) && decide (r.from_y ≤ y) && decide (y < r.to_y)

/-- `Region.expand`: push all four bounds outward by `padding`. -/
def Region.expand (r : Region) (padding : Int) : Region :=
  { from_x := r.from_x - padding
    from_y := r.from_y - padding
    to_x := r.to_x + padding
    to_y := r.to_y + padding }

/-- `SafeHouse` record (strings modelled as decoded byte content). -/
structure SafeHouse where
  region : Region
  owner : Bytes
  players : List Bytes
  title : Bytes
deriving DecidableEq

/-- `BinaryReader`: buffer, read offset, and the one-shot mark. -/
structure BinaryReader where
  data : Bytes
  position : Int
  marked_position : Option Int
deriving DecidableEq

/-- `BinaryReader.mark`. -/
def BinaryReader.mark (r : BinaryReader) : BinaryReader :=
  { r with marked_position := some r.position }

/-- `BinaryReader.reset`: restore the marked position (clearing the mark), or 0. -/
def BinaryReader.reset (r : BinaryReader) : BinaryReader :=
  match r.marked_position with
  | some m => { r with position := m, marked_position := none }
  | none => { r with position := 0 }

/-- Byte of a buffer at an absolute (already normalised) index. -/
def byteAt (data : Bytes) (i : Nat) : Nat := data.getD i 0

/-- `struct.unpack_from` offset normalisation: a negative offset counts from
the end of the buffer. -/
def effOffset (data : Bytes) (pos : Int) : Int :=
  if pos < 0 then pos + data.length else pos

/-- Whether `struct.unpack_from` with a `size`-byte format succeeds at `pos`. -/
def canUnpack (data : Bytes) (pos : Int) (size : Nat) : Bool :=
  decide (0 ≤ effOffset data pos) && decide (effOffset data pos + size ≤ (data.length : Int))

/-- `read_int8`: signed 8-bit value; on `struct.error` the source raises
`ValueError` without having moved the offset. -/
def BinaryReader.read_int8 (r : BinaryReader) : Except PyError Int × BinaryReader :=
  if canUnpack r.data r.position 1 then
    let off := (effOffset r.data r.position).toNat
    let b := byteAt r.data off
    (.ok (if b < 128 then (b : Int) else (b : Int) - 256), { r with position := r.position + 1 })
  else (.error .valueError, r)

/-- `read_int16`: signed big-endian 16-bit value (format `'>h'`). -/
def BinaryReader.read_int16 (r : BinaryReader) : Except PyError Int × BinaryReader :=
  if canUnpack r.data r.position 2 then
    let off := (effOffset r.data r.position).toNat
    let u := byteAt r.data off * 256 + byteAt r.data (off + 1)
    (.ok (if u < 32768 then (u : Int) else (u : Int) - 65536),
      { r with position := r.position + 2 })
  else (.error .valueError, r)

/-- `read_int32`: signed big-endian 32-bit value (format `'>i'`). -/
def BinaryReader.read_int32 (r : BinaryReader) : Except PyError Int × BinaryReader :=
  if canUnpack r.data r.position 4 then
    let off := (effOffset r.data r.position).toNat
    let u := ((byteAt r.data off * 256 + byteAt r.data (off + 1)) * 256
      + byteAt r.data (off + 2)) * 256 + byteAt r.data (off + 3)
    (.ok (if u < 2147483648 then (u : Int) else (u : Int) - 4294967296),
      { r with position := r.position + 4 })
  else (.error .valueError, r)

/-- Python slice endpoint normalisation for `data[a:b]`. -/
def sliceIndex (n : Nat) (i : Int) : Nat :=
  if i < 0 then (i + n).toNat else min i.toNat n

/-- Python `data[a:b]` on a byte buffer. -/
def pySlice (data : Bytes) (a b : Int) : Bytes :=
  (data.take (sliceIndex data.length b)).drop (sliceIndex data.length a)

/-- Truncation of a decoded string at its first NUL character, at byte level. -/
def truncNul (bs : Bytes) : Bytes := bs.takeWhile (fun b => b != 0)

/-- The tail of `read_string` once the `length` value is known: empty result for
length 0, bounds check (raising without a further offset move), then slice,
decode and NUL-truncate, advancing the offset by `length`. -/
def BinaryReader.read_string_len (r : BinaryReader) (length : Int) :
    Except PyError Bytes × BinaryReader :=
  if length = 0 then (.ok [], r)
  else if (r.data.length : Int) < r.position + length then (.error .valueError, r)
  else
    (.ok (truncNul (pySlice r.data r.position (r.position + length))),
      { r with position := r.position + length })

/-- `read_string`: with no explicit length, the length is first read as a
signed 16-bit integer (this moves the offset by 2 even if the body read then
fails). -/
def BinaryReader.read_string (r : BinaryReader) (length? : Option Int) :
    Except PyError Bytes × BinaryReader :=
  match length? with
  | some l => r.read_string_len l
  | none =>
    match r.read_int16 with
    | (.error e, r') => (.error e, r')
    | (.ok l, r') => r'.read_string_len l

/-- `skip_bytes`: bounds check, then advance. -/
def BinaryReader.skip_bytes (r : BinaryReader) (count : Int) :
    Except PyError Unit × BinaryReader :=
  if (r.data.length : Int) < r.position + count then (.error .valueError, r)
  else (.ok (), { r with position := r.position + count })

/-- Sequencing of reader operations: propagate a raised exception together with
the reader state at the raise site, otherwise continue. -/
def rbind {α β : Type} (step : Except PyError α × BinaryReader)
    (k : α → BinaryReader → Except PyError β × BinaryReader) :
    Except PyError β × BinaryReader :=
  match step with
  | (.error e, r) => (.error e, r)
  | (.ok a, r) => k a r

/-- The bytes of the `"META"` marker. -/
def metaMarker : Bytes := [77, 69, 84, 65]

/-- One iteration of the room-definition skip loop in `load_safehouses`. -/
def skipRoomEntry (version : Int) (r : BinaryReader) : Except PyError Unit × BinaryReader :=
  rbind (if version < 194 then r.skip_bytes 4 else r.skip_bytes 8) fun _ r =>
  if 160 ≤ version then r.skip_bytes 2
  else
    rbind (r.skip_bytes 1) fun _ r =>
    if 34 ≤ version then r.skip_bytes 1 else (.ok (), r)

/-- One iteration of the building-definition skip loop in `load_safehouses`. -/
def skipBuildingEntry (version : Int) (r : BinaryReader) : Except PyError Unit × BinaryReader :=
  rbind (if 194 ≤ version then r.skip_bytes 8 else (.ok (), r)) fun _ r =>
  rbind (r.skip_bytes 1) fun _ r =>
  rbind (if 57 ≤ version then r.skip_bytes 4 else (.ok (), r)) fun _ r =>
  rbind (if 74 ≤ version then r.skip_bytes 1 else (.ok (), r)) fun _ r =>
  rbind (if 107 ≤ version then r.skip_bytes 1 else (.ok (), r)) fun _ r =>
  rbind (if 111 ≤ version ∧ version < 121 then r.skip_bytes 4 else (.ok (), r)) fun _ r =>
  if 125 ≤ version then r.skip_bytes 4 else (.ok (), r)

/-- A `for _ in range(n)` loop whose body only advances the reader. -/
def skipEntries (step : BinaryReader → Except PyError Unit × BinaryReader) :
    Nat → BinaryReader → Except PyError Unit × BinaryReader
  | 0, r => (.ok (), r)
  | n + 1, r => rbind (step r) fun _ r => skipEntries step n r

/-- The per-cell body of the bounds loop: a room-definition count followed by
that many room entries, then a building-definition count and its entries. -/
def skipCell (version : Int) (r : BinaryReader) : Except PyError Unit × BinaryReader :=
  rbind r.read_int32 fun room_def_count r =>
  rbind (skipEntries (skipRoomEntry version) room_def_count.toNat r) fun _ r =>
  rbind r.read_int32 fun building_def_count r =>
  skipEntries (skipBuildingEntry version) building_def_count.toNat r

/-- The `for _ in range(player_count)` loop reading length-prefixed strings. -/
def readStrings : Nat → BinaryReader → Except PyError (List Bytes) × BinaryReader
  | 0, r => (.ok [], r)
  | n + 1, r =>
    rbind (r.read_string none) fun s r =>
    rbind (readStrings n r) fun rest r =>
    (.ok (s :: rest), r)

/-- The byte content of the literal `"'s safe house"`. -/
def titleSuffix : Bytes := [39, 115, 32, 115, 97, 102, 101, 32, 104, 111, 117, 115, 101]

/-- The title of a safehouse record: defaulted to `f"{owner}'s safe house"`,
overwritten by a string read from the stream when `version >= 101`. -/
def titleStep (version : Int) (owner : Bytes) (r : BinaryReader) :
    Except PyError Bytes × BinaryReader :=
  if 101 ≤ version then r.read_string none
  else (.ok (owner ++ titleSuffix), r)

/-- World-unit rectangle to tile units: floor division by 10 for the `from`
corner, ceiling division (as `(v + 9) // 10`) for the `to` corner. -/
def toTileRegion (x y w h : Int) : Region :=
  { from_x := Int.fdiv x 10
    from_y := Int.fdiv y 10
    to_x := Int.fdiv (x + w + 9) 10
    to_y := Int.fdiv (y + h + 9) 10 }

/-- The four `x, y, w, h` reads opening a safehouse record. -/
def readGeom (r : BinaryReader) : Except PyError (Int × Int × Int × Int) × BinaryReader :=
  rbind r.read_int32 fun x r =>
  rbind r.read_int32 fun y r =>
  rbind r.read_int32 fun w r =>
  rbind r.read_int32 fun h r =>
  (.ok (x, y, w, h), r)

/-- The remainder of a safehouse record after its geometry: owner, players,
the 8-byte timestamp skip, title, and the discarded respawn strings for
`version >= 177`. -/
def finishSafehouse (version x y w h : Int) (r : BinaryReader) :
    Except PyError SafeHouse × BinaryReader :=
  rbind (r.read_string none) fun owner r =>
  rbind r.read_int32 fun player_count r =>
  rbind (readStrings player_count.toNat r) fun players r =>
  rbind (r.skip_bytes 8) fun _ r =>
  rbind (titleStep version owner r) fun title r =>
  rbind (if 177 ≤ version then
          rbind r.read_int32 fun player_respawn_count r =>
          rbind (readStrings player_respawn_count.toNat r) fun _ r => (.ok (), r)
        else (.ok (), r)) fun _ r =>
  (.ok { region := toTileRegion x y w h, owner := owner, players := players, title := title }, r)

/-- The body of one iteration of the safehouse loop (the contents of the
per-record `try`). -/
def readOneSafehouse (version : Int) (r : BinaryReader) :
    Except PyError SafeHouse × BinaryReader :=
  rbind (readGeom r) fun g r =>
  finishSafehouse version g.1 g.2.1 g.2.2.1 g.2.2.2 r

/-- The `for i in range(safehouse_count)` loop: append each decoded record; on
the first record that raises, `break` with the records gathered so far. -/
def safehouseLoop (version : Int) :
    Nat → BinaryReader → List SafeHouse → List SafeHouse × BinaryReader
  | 0, r, acc => (acc, r)
  | n + 1, r, acc =>
    match readOneSafehouse version r with
    | (.ok sh, r') => safehouseLoop version n r' (acc ++ [sh])
    | (.error _, r') => (acc, r')

/-- `load_safehouses` from the point where the format version is known:
unsupported-version early return, bounds, the row-major (x outer) cell skip
loop, the `version <= 112` early return, then the safehouse section whose
count read is guarded by its own `try` (failure is the no-safehouse case). -/
def parseAfterVersion (version : Int) (r : BinaryReader) : Except PyError (List SafeHouse) :=
  if version < 194 then .ok []
  else
    rbind r.read_int32 (fun min_x r =>
    rbind r.read_int32 (fun min_y r =>
    rbind r.read_int32 (fun max_x r =>
    rbind r.read_int32 (fun max_y r =>
    rbind (skipEntries (fun r => skipEntries (skipCell version) (max_y + 1 - min_y).toNat r)
        (max_x + 1 - min_x).toNat r) (fun _ r =>
    (if version ≤ 112 then (.ok [], r)
     else
       match r.read_int32 with
       | (.error _, r') => (.ok [], r')
       | (.ok safehouse_count, r) =>
         (.ok (safehouseLoop version safehouse_count.toNat r []).1, r))))))) |>.1

/-- The body of the outer `try` of `load_safehouses`: mark, probe the 4-byte
marker, read or default the version (resetting in the legacy case), then
`parseAfterVersion`. -/
def load_safehousesE (data : Bytes) : Except PyError (List SafeHouse) :=
  let reader := (BinaryReader.mk data 0 none).mark
  match reader.read_string (some 4) with
  | (.error e, _) => .error e
  | (.ok file_type, r) =>
    if file_type = metaMarker then
      match r.read_int32 with
      | (.error e, _) => .error e
      | (.ok version, r) => parseAfterVersion version r
    else
      parseAfterVersion 33 r.reset

/-- `load_safehouses` with the outer `except ValueError` / `except Exception`
clauses made explicit: every raised error is caught and becomes the empty
list. -/
def load_safehouses_result (data : Bytes) : Except PyError (List SafeHouse) :=
  match load_safehousesE data with
  | .ok safehouses => .ok safehouses
  | .error _ => .ok []

/-- `load_safehouses` as its callers see it. -/
def load_safehouses (data : Bytes) : List SafeHouse :=
  match load_safehouses_result data with
  | .ok safehouses => safehouses
  | .error _ => []

/-- The three file categories accepted by `coordinate_to_filename`. -/
inductive Filetype where
  | M
  | C
  | Z
deriving DecidableEq

/-- `coordinate_to_filename`: tile filename, or the aggregated chunk filename
obtained by floor-dividing each axis by 30. -/
def coordinate_to_filename (x y : Int) (filetype : Filetype) : String :=
  match filetype with
  | .M => s!"map_{x}_{y}.bin"
  | .C =>
    let cx := Int.fdiv x 30
    let cy := Int.fdiv y 30
    s!"chunkdata_{cx}_{cy}.bin"
  | .Z =>
    let cx := Int.fdiv x 30
    let cy := Int.fdiv y 30
    s!"zpop_{cx}_{cy}.bin"

/-- Filesystem state of the save directory (paths relative to it) together
with the `deleted_files` set of already-handled file keys. -/
structure DelState where
  fs : List String
  deleted_files : List String
deriving DecidableEq

/-- `Path.exists` on the modelled filesystem. -/
def fsExists (fs : List String) (p : String) : Bool := fs.contains p

/-- The `elif` chain of `_delete_file_if_exists` for non-map files: modern
`chunkdata/` location, or for zpop files the `zpop/` directory if that path
exists, falling back to `chunkdata/`. -/
def resolveChunkZpop (fs : List String) (filename : String) : String × String :=
  if filename.startsWith "chunkdata_" then
    ("chunkdata/" ++ filename, "chunkdata/" ++ filename)
  else if filename.startsWith "zpop_" then
    let zpop_path := "zpop/" ++ filename
    if fsExists fs zpop_path then (zpop_path, "zpop/" ++ filename)
    else ("chunkdata/" ++ filename, "chunkdata/" ++ filename)
  else (filename, filename)

/-- Modern-structure resolution of `_delete_file_if_exists`, entered when the
legacy path is absent: `map/X/Y` when coordinates were passed and the name is
a map file, otherwise the chunkdata/zpop chain. -/
def resolveModern (fs : List String) (filename : String) (xy : Option (Int × Int)) :
    String × String :=
  match xy with
  | some (x, y) =>
    if filename.startsWith "map_" then (s!"map/{x}/{y}", s!"map/{x}/{y}")
    else resolveChunkZpop fs filename
  | none => resolveChunkZpop fs filename

/-- `_delete_file_if_exists`: resolve the path and key, then, when the path
exists and the key is new, delete (or merely report under `dry_run`), record
the key, and return `True`. The returned `Option String` is the key of the
performed deletion/report, if any. -/
def delete_file_if_exists (st : DelState) (filename : String) (dry_run : Bool)
    (xy : Option (Int × Int)) : (Bool × Option String) × DelState :=
  let resolved :=
    if fsExists st.fs filename then (filename, filename)
    else resolveModern st.fs filename xy
  let filepath := resolved.1
  let file_key := resolved.2
  if fsExists st.fs filepath && !(st.deleted_files.contains file_key) then
    let fs' := if dry_run then st.fs else st.fs.erase filepath
    ((true, some file_key), { fs := fs', deleted_files := file_key :: st.deleted_files })
  else ((false, none), st)

/-- State accumulated by the sweep of `delete_files_in_area`: the filesystem
and key set, the three counters, the trace of helper invocations
(coordinate and filename passed), and the trace of performed
deletions/dry-run reports (their file keys, in order). -/
structure SweepState where
  del : DelState
  files_checked : Nat
  files_deleted : Nat
  files_protected : Nat
  calls : List (Int × Int × String)
  events : List String
deriving DecidableEq

/-- One invocation of `_delete_file_if_exists` from the sweep, incrementing
`files_deleted` when it returns `True`. -/
def tryDelete (st : SweepState) (x y : Int) (filename : String) (dry_run : Bool)
    (xy : Option (Int × Int)) : SweepState :=
  match delete_file_if_exists st.del filename dry_run xy with
  | ((ok, ev), del') =>
    { st with
      del := del'
      files_deleted := st.files_deleted + (if ok then 1 else 0)
      calls := st.calls ++ [(x, y, filename)]
      events := st.events ++ ev.toList }

/-- The body of the sweep for one coordinate: count it, test the exclusion
regions (short-circuiting first match; an empty region list never protects),
and either count it protected or run the enabled category deletions. -/
def processCoord (delete_map_data delete_chunk_data delete_zpop_data dry_run : Bool)
    (excluded_regions : List Region) (st : SweepState) (x y : Int) : SweepState :=
  let st := { st with files_checked := st.files_checked + 1 }
  let is_protected := excluded_regions.any fun region => region.contains_point x y
  if is_protected then { st with files_protected := st.files_protected + 1 }
  else
    let st := if delete_map_data then
        tryDelete st x y (coordinate_to_filename x y .M) dry_run (some (x, y)) else st
    let st := if delete_chunk_data then
        tryDelete st x y (coordinate_to_filename x y .C) dry_run none else st
    if delete_zpop_data then
      tryDelete st x y (coordinate_to_filename x y .Z) dry_run none else st

/-- Python `range(a, b)` over integers. -/
def intRange (a b : Int) : List Int :=
  (List.range (b - a).toNat).map fun (i : Nat) => a + (i : Int)

/-- The exclusion index: when protection is enabled, every region decoded from
the metadata file (absent file: no safehouses), expanded by the padding. -/
def excludedRegionsOf (safehouse_protection : Bool) (meta : Option Bytes)
    (safehouse_padding : Int) : List Region :=
  if safehouse_protection then
    let safehouses : List SafeHouse :=
      match meta with
      | some data => load_safehouses data
      | none => []
    safehouses.map fun sh => sh.region.expand safehouse_padding
  else []

/-- The sweep state before any coordinate is processed. -/
def initSweep (fs : List String) : SweepState :=
  { del := { fs := fs, deleted_files := [] }
    files_checked := 0
    files_deleted := 0
    files_protected := 0
    calls := []
    events := [] }

/-- `delete_files_in_area`: early (0,0,0) return when no category is enabled,
otherwise the row-major sweep (x outer, y inner) of `processCoord` over the
half-open rectangle. -/
def delete_files_in_area (fs : List String) (meta : Option Bytes)
    (start_x start_y end_x end_y : Int)
    (delete_map_data delete_chunk_data delete_zpop_data dry_run safehouse_protection : Bool)
    (safehouse_padding : Int) : SweepState :=
  if !(delete_map_data || delete_chunk_data || delete_zpop_data) then initSweep fs
  else
    let excluded_regions := excludedRegionsOf safehouse_protection meta safehouse_padding
    (intRange start_x end_x).foldl
      (fun st x =>
        (intRange start_y end_y).foldl
          (fun st y =>
            processCoord delete_map_data delete_chunk_data delete_zpop_data dry_run
              excluded_regions st x y)
          st)
      (initSweep fs)

/-! ### Concrete test vectors

A version-194 metadata file with world bounds `(0,0)-(0,0)`, zero rooms and
buildings, and the safehouse record of the spec's worked example
(`x=1000, y=2000, w=50, h=30`, owner `"TestOwner"`, one player
`"TestPlayer"`, title `"Test Safehouse"`, no respawn points). -/

/-- `"META"`, version 194, the four zero bounds, and the zero room and
building counts of the single cell (32 bytes). -/
def metaHeader : Bytes :=
  [77, 69, 84, 65, 0, 0, 0, 194] ++ List.replicate 16 0 ++ [0, 0, 0, 0] ++ [0, 0, 0, 0]

/-- One complete safehouse record (71 bytes). -/
def shRecord : Bytes :=
  [0, 0, 3, 232] ++ [0, 0, 7, 208] ++ [0, 0, 0, 50] ++ [0, 0, 0, 30] ++
  [0, 9, 84, 101, 115, 116, 79, 119, 110, 101, 114] ++
  [0, 0, 0, 1] ++ [0, 10, 84, 101, 115, 116, 80, 108, 97, 121, 101, 114] ++
  [0, 0, 0, 0, 0, 0, 0, 0] ++
  [0, 14, 84, 101, 115, 116, 32, 83, 97, 102, 101, 104, 111, 117, 115, 101] ++
  [0, 0, 0, 0]

/-- Metadata file announcing one safehouse, followed by that one record. -/
def metaOneSafehouse : Bytes := metaHeader ++ [0, 0, 0, 1] ++ shRecord

/-- Metadata file announcing two safehouses but containing only one record:
the second record's first read fails at the end of the buffer. -/
def metaTruncated : Bytes := metaHeader ++ [0, 0, 0, 2] ++ shRecord

/-- The safehouse decoded from `shRecord`. -/
def shExpected : SafeHouse :=
  { region := { from_x := 100, from_y := 200, to_x := 105, to_y := 203 }
    owner := [84, 101, 115, 116, 79, 119, 110, 101, 114]
    players := [[84, 101, 115, 116, 80, 108, 97, 121, 101, 114]]
    title := [84, 101, 115, 116, 32, 83, 97, 102, 101, 104, 111, 117, 115, 101] }

/-! ### Helper lemmas -/

theorem canUnpack_eq (data : Bytes) (pos : Int) (size : Nat) (h : 0 ≤ pos) :
    canUnpack data pos size = decide (pos + size ≤ (data.length : Int)) := by
  unfold canUnpack effOffset
  rw [if_neg (by omega : ¬ pos < 0)]
  simp [h]

theorem canUnpack_le {data : Bytes} {pos : Int} {size : Nat}
    (h : canUnpack data pos size = true) : pos + size ≤ (data.length : Int) := by
  unfold canUnpack effOffset at h
  simp only [Bool.and_eq_true, decide_eq_true_eq] at h
  split_ifs at h <;> omega

theorem skip_bytes_ok {r r' : BinaryReader} {c : Int} {u : Unit}
    (h : r.skip_bytes c = (.ok u, r')) :
    r' = { r with position := r.position + c } := by
  unfold BinaryReader.skip_bytes at h
  split at h
  · simp at h
  · simp only [Prod.mk.injEq] at h
    exact h.2.symm

theorem rbind_ok {α β : Type} {step : Except PyError α × BinaryReader}
    {k : α → BinaryReader → Except PyError β × BinaryReader} {b : β} {r' : BinaryReader}
    (h : rbind step k = (.ok b, r')) :
    ∃ a r₁, step = (.ok a, r₁) ∧ k a r₁ = (.ok b, r') := by
  rcases step with ⟨res, r₁⟩
  cases res with
  | error e => simp [rbind] at h
  | ok a => exact ⟨a, r₁, rfl, h⟩

theorem dfie_spec (st : DelState) (fn : String) (dry : Bool) (xy : Option (Int × Int)) :
    ((delete_file_if_exists st fn dry xy).1 = (false, none) ∧
      (delete_file_if_exists st fn dry xy).2 = st) ∨
    ∃ k, (delete_file_if_exists st fn dry xy).1 = (true, some k) ∧
      (delete_file_if_exists st fn dry xy).2.deleted_files = k :: st.deleted_files ∧
      st.deleted_files.contains k = false := by
  simp only [delete_file_if_exists]
  split_ifs
  all_goals
    first
      | exact Or.inl ⟨rfl, rfl⟩
      | (refine Or.inr ⟨_, rfl, rfl, ?_⟩
         simp_all [Bool.and_eq_true, Bool.not_eq_true'])

theorem tryDelete_eq (st : SweepState) (x y : Int) (fn : String) (dry : Bool)
    (xy : Option (Int × Int)) :
    tryDelete st x y fn dry xy =
      { st with
        del := (delete_file_if_exists st.del fn dry xy).2
        files_deleted :=
          st.files_deleted + (if (delete_file_if_exists st.del fn dry xy).1.1 then 1 else 0)
        calls := st.calls ++ [(x, y, fn)]
        events := st.events ++ (delete_file_if_exists st.del fn dry xy).1.2.toList } := by
  unfold tryDelete
  rcases h : delete_file_if_exists st.del fn dry xy with ⟨⟨ok, ev⟩, del'⟩
  rfl

theorem processCoord_protected_eq {regs : List Region} {x y : Int}
    (m c z dry : Bool) (st : SweepState)
    (h : (regs.any fun region => region.contains_point x y) = true) :
    processCoord m c z dry regs st x y =
      { st with
        files_checked := st.files_checked + 1
        files_protected := st.files_protected + 1 } := by
  simp only [processCoord, h, if_true]

theorem processCoord_checked (m c z dry : Bool) (regs : List Region) (st : SweepState)
    (x y : Int) :
    (processCoord m c z dry regs st x y).files_checked = st.files_checked + 1 := by
  by_cases h : (regs.any fun region => region.contains_point x y) = true
  · rw [processCoord_protected_eq m c z dry st h]
  · rw [Bool.not_eq_true] at h
    simp only [processCoord, h, Bool.false_eq_true, if_false]
    split <;> split <;> split <;> simp [tryDelete_eq]

theorem processCoord_calls_mem {m c z dry : Bool} {regs : List Region} {st : SweepState}
    {x y : Int} :
    ∀ e ∈ (processCoord m c z dry regs st x y).calls,
      e ∈ st.calls ∨ (e.1 = x ∧ e.2.1 = y) := by
  intro e he
  by_cases h : (regs.any fun region => region.contains_point x y) = true
  · rw [processCoord_protected_eq m c z dry st h] at he
    exact .inl he
  · rw [Bool.not_eq_true] at h
    simp only [processCoord, h, Bool.false_eq_true, if_false] at he
    revert he
    split <;> split <;> split <;>
      simp only [tryDelete_eq, List.mem_append, List.mem_singleton] <;>
      aesop

/-- The sweep invariant tying the deletion counter, the event trace and the
`deleted_files` set together. -/
def SweepInv (st : SweepState) : Prop :=
  st.events.Nodup ∧ st.files_deleted = st.events.length ∧
    ∀ k, k ∈ st.events ↔ k ∈ st.del.deleted_files

theorem tryDelete_inv {st : SweepState} (x y : Int) (fn : String) (dry : Bool)
    (xy : Option (Int × Int)) (h : SweepInv st) : SweepInv (tryDelete st x y fn dry xy) := by
  obtain ⟨hnd, hlen, hmem⟩ := h
  rw [tryDelete_eq]
  rcases dfie_spec st.del fn dry xy with ⟨h1, h2⟩ | ⟨k, h1, h2, h3⟩
  · refine ⟨?_, ?_, ?_⟩ <;> simp [h1, h2, hnd, hlen, hmem]
  · have hk3 : k ∉ st.del.deleted_files := by simpa using h3
    have hk : k ∉ st.events := fun hk => hk3 ((hmem k).1 hk)
    refine ⟨?_, ?_, ?_⟩
    · simp [h1, List.nodup_append, hnd, hk]
    · simp [h1, hlen]
    · intro j
      simp only [h1, h2, Option.toList_some, List.mem_append, List.mem_singleton,
        List.mem_cons]
      rw [hmem j]
      tauto

theorem processCoord_inv (m c z dry : Bool) (regs : List Region) {st : SweepState}
    (x y : Int) (h : SweepInv st) : SweepInv (processCoord m c z dry regs st x y) := by
  have hstep : SweepInv { st with files_checked := st.files_checked + 1 } := h
  by_cases hp : (regs.any fun region => region.contains_point x y) = true
  · rw [processCoord_protected_eq m c z dry st hp]
    exact h
  · rw [Bool.not_eq_true] at hp
    simp only [processCoord, hp, Bool.false_eq_true, if_false]
    split <;> split <;> split
    all_goals
      first
        | exact tryDelete_inv _ _ _ _ _ (tryDelete_inv _ _ _ _ _
            (tryDelete_inv _ _ _ _ _ hstep))
        | exact tryDelete_inv _ _ _ _ _ (tryDelete_inv _ _ _ _ _ hstep)
        | exact tryDelete_inv _ _ _ _ _ hstep
        | exact hstep

/-- Invariant preservation along a `foldl`. -/
theorem foldl_inv {α β : Type} (f : α → β → α) (P : α → Prop)
    (hf : ∀ a b, P a → P (f a b)) : ∀ (l : List β) (a : α), P a → P (l.foldl f a) := by
  intro l
  induction l with
  | nil => exact fun a ha => ha
  | cons b t ih => exact fun a ha => ih (f a b) (hf a b ha)

theorem foldl_checked_inner (m c z dry : Bool) (regs : List Region) (x : Int) :
    ∀ (ys : List Int) (st : SweepState),
      (ys.foldl (fun st y => processCoord m c z dry regs st x y) st).files_checked
        = st.files_checked + ys.length := by
  intro ys
  induction ys with
  | nil => intro st; simp
  | cons y t ih =>
    intro st
    rw [List.foldl_cons, ih, processCoord_checked]
    simp [Nat.add_assoc, Nat.add_comm 1 t.length]

theorem foldl_checked_outer (m c z dry : Bool) (regs : List Region) (ys : List Int) :
    ∀ (xs : List Int) (st : SweepState),
      (xs.foldl
        (fun st x => ys.foldl (fun st y => processCoord m c z dry regs st x y) st)
        st).files_checked = st.files_checked + xs.length * ys.length := by
  intro xs
  induction xs with
  | nil => intro st; simp
  | cons x t ih =>
    intro st
    rw [List.foldl_cons, ih, foldl_checked_inner]
    simp [Nat.succ_mul, Nat.add_assoc, Nat.add_comm (ys.length) (t.length * ys.length)]

theorem intRange_length (a b : Int) : (intRange a b).length = (b - a).toNat := by
  rw [intRange, List.length_map, List.length_range]

/-- `(t + 9).fdiv 10` is the ceiling of `t / 10`. -/
theorem fdiv_add_nine (t : Int) : Int.fdiv (t + 9) 10 = ⌈(t : ℚ) / 10⌉ := by
  rw [Int.fdiv_eq_ediv _ (by norm_num)]
  symm
  rw [Int.ceil_eq_iff]
  have h1 : 10 * ((t + 9) / 10) ≤ t + 9 := by omega
  have h2 : t + 9 < 10 * ((t + 9) / 10) + 10 := by omega
  generalize hq : (t + 9) / 10 = q at h1 h2
  constructor
  · rw [show ((q : ℚ) : ℚ) - 1 = ((q - 1 : ℤ) : ℚ) by push_cast; ring]
    rw [lt_div_iff₀ (by norm_num : (0:ℚ) < 10)]
    exact_mod_cast (by omega : (q - 1) * 10 < t)
  · rw [div_le_iff₀ (by norm_num : (0:ℚ) < 10)]
    exact_mod_cast (by omega : t ≤ q * 10)

theorem read_int8_cases (r : BinaryReader) :
    (canUnpack r.data r.position 1 = true ∧
      r.read_int8.2 = { r with position := r.position + 1 }) ∨
    (canUnpack r.data r.position 1 = false ∧ r.read_int8 = (.error .valueError, r)) := by
  unfold BinaryReader.read_int8
  split
  · rename_i hc; exact .inl ⟨hc, rfl⟩
  · rename_i hc; exact .inr ⟨by simpa using hc, rfl⟩

theorem read_int16_cases (r : BinaryReader) :
    (canUnpack r.data r.position 2 = true ∧
      r.read_int16.2 = { r with position := r.position + 2 }) ∨
    (canUnpack r.data r.position 2 = false ∧ r.read_int16 = (.error .valueError, r)) := by
  unfold BinaryReader.read_int16
  split
  · rename_i hc; exact .inl ⟨hc, rfl⟩
  · rename_i hc; exact .inr ⟨by simpa using hc, rfl⟩

theorem read_int32_cases (r : BinaryReader) :
    (canUnpack r.data r.position 4 = true ∧
      r.read_int32.2 = { r with position := r.position + 4 }) ∨
    (canUnpack r.data r.position 4 = false ∧ r.read_int32 = (.error .valueError, r)) := by
  unfold BinaryReader.read_int32
  split
  · rename_i hc; exact .inl ⟨hc, rfl⟩
  · rename_i hc; exact .inr ⟨by simpa using hc, rfl⟩

theorem read_int16_ok {r r₁ : BinaryReader} {v : Int}
    (h : r.read_int16 = (.ok v, r₁)) : r₁ = { r with position := r.position + 2 } := by
  rcases read_int16_cases r with ⟨_, h2⟩ | ⟨_, he⟩
  · rw [← h2, h]
  · rw [he] at h
    simp at h

theorem read_string_len_position {r : BinaryReader} (l : Int)
    (hle : r.position ≤ (r.data.length : Int)) :
    (r.read_string_len l).2.position ≤ (r.data.length : Int) := by
  unfold BinaryReader.read_string_len
  split
  · exact hle
  · split
    · exact hle
    · rename_i hb
      simp only
      omega

/-! ### Claim theorems -/

/-- C2: for every input byte content of the metadata file, `load_safehouses`
returns a (possibly empty) list of safehouses and never propagates an error
to its caller: the explicit-catch decoder always yields `Except.ok`. -/
theorem spec_C2_never_raises (data : Bytes) :
    ∃ l : List SafeHouse, load_safehouses_result data = .ok l ∧ load_safehouses data = l := by
  cases h : load_safehousesE data with
  | ok l =>
    exact ⟨l, by simp [load_safehouses_result, h],
      by simp [load_safehouses, load_safehouses_result, h]⟩
  | error e =>
    exact ⟨[], by simp [load_safehouses_result, h],
      by simp [load_safehouses, load_safehouses_result, h]⟩

/-- C5: the code reads the string-length prefix with the signed format
`'>h'`. At the prefix bytes `0x9C 0x40` (unsigned 40000) it decodes `-25536`,
so `read_string` returns the empty string and moves the offset backwards to
`-25534` instead of reading 40000 bytes; the prefix `0xFF 0xFF` (unsigned
65535) decodes as `-1`. This exhibits the divergence of the code from the
claimed unsigned decoding (the repository's own test suite asserts the
unsigned behaviour, via a `read_uint16` method absent from the code). -/
theorem spec_C5_signed_length_decode :
    BinaryReader.read_int16 (BinaryReader.mk [156, 64] 0 none) =
      (.ok (-25536), BinaryReader.mk [156, 64] 2 none) ∧
    BinaryReader.read_string (BinaryReader.mk [156, 64] 0 none) none =
      (.ok [], BinaryReader.mk [156, 64] (-25534) none) ∧
    BinaryReader.read_int16 (BinaryReader.mk [255, 255] 0 none) =
      (.ok (-1), BinaryReader.mk [255, 255] 2 none) :=
  ⟨rfl, rfl, rfl⟩

/-- C8 (amended): expansion followed by containment agrees with the shifted
bounds, expanding by 0 is the identity, and a negative-width region stays
empty after expansion provided the padding does not make the width positive
(`2 * p ≤ a - c`; in particular for every non-positive padding). The original
claim's "always false regardless of the sign of the padding" fails for large
positive padding. -/
theorem spec_C8_expand_contains (a b c d p x y : Int) :
    (((Region.mk a b c d).expand p).contains_point x y = true ↔
      a - p ≤ x ∧ x < c + p ∧ b - p ≤ y ∧ y < d + p) ∧
    (Region.mk a b c d).expand 0 = Region.mk a b c d ∧
    (c < a → 2 * p ≤ a - c →
      ((Region.mk a b c d).expand p).contains_point x y = false) := by
  refine ⟨?_, ?_, ?_⟩
  · simp [Region.expand, Region.contains_point, and_assoc]
  · simp [Region.expand]
  · intro h1 h2
    rw [Bool.eq_false_iff]
    intro hc
    simp only [Region.expand, Region.contains_point, Bool.and_eq_true,
      decide_eq_true_eq] at hc
    omega

/-- C8 counterexample: `Region(5,0,4,10)` has negative width (`4 < 5`), yet
after expanding by the positive padding 10 it does contain `(0,5)`,
contradicting the claim that containment is always false for negative-width
regions regardless of the sign of the padding. -/
theorem spec_C8_counterexample :
    (4 : Int) < 5 ∧ ((Region.mk 5 0 4 10).expand 10).contains_point 0 5 = true := by
  decide

/-- C8 witness: the amended negative-width clause at a concrete input. -/
theorem spec_C8_witness :
    (3 : Int) < 5 ∧ 2 * (-1 : Int) ≤ 5 - 3 ∧
      ((Region.mk 5 0 3 9).expand (-1)).contains_point 4 4 = false :=
  ⟨by decide, by decide, (spec_C8_expand_contains 5 0 3 9 (-1) 4 4).2.2 (by decide) (by decide)⟩

/-- C4 (amended): every fixed-size read (`read_int8/16/32`, `skip_bytes`) and
`read_string` with an explicit length fail with `ValueError` and an unchanged
offset when they would read past the end of the buffer; `read_string` without
an explicit length, however, first consumes the 2-byte length prefix, so when
its body read fails the offset is left at entry + 2, not at the entry offset
(this is the corrected part of the claim); and no operation ever leaves the
offset beyond the buffer length when it did not start beyond it. -/
theorem spec_C4_reader_bounds (r : BinaryReader) :
    ((0 ≤ r.position → (r.data.length : Int) < r.position + 1 →
        r.read_int8 = (.error .valueError, r)) ∧
      (0 ≤ r.position → (r.data.length : Int) < r.position + 2 →
        r.read_int16 = (.error .valueError, r)) ∧
      (0 ≤ r.position → (r.data.length : Int) < r.position + 4 →
        r.read_int32 = (.error .valueError, r)) ∧
      (∀ count : Int, (r.data.length : Int) < r.position + count →
        r.skip_bytes count = (.error .valueError, r)) ∧
      (∀ l : Int, l ≠ 0 → (r.data.length : Int) < r.position + l →
        r.read_string (some l) = (.error .valueError, r))) ∧
    (∀ l r₁, r.read_int16 = (.ok l, r₁) → l ≠ 0 →
      (r.data.length : Int) < r₁.position + l →
      r.read_string none = (.error .valueError, r₁) ∧ r₁.position = r.position + 2) ∧
    (r.position ≤ (r.data.length : Int) →
      (r.read_int8.2.position ≤ (r.data.length : Int) ∧
       r.read_int16.2.position ≤ (r.data.length : Int) ∧
       r.read_int32.2.position ≤ (r.data.length : Int) ∧
       (∀ count : Int, (r.skip_bytes count).2.position ≤ (r.data.length : Int)) ∧
       (∀ l? : Option Int, (r.read_string l?).2.position ≤ (r.data.length : Int)))) := by
  refine ⟨⟨?_, ?_, ?_, ?_, ?_⟩, ?_, ?_⟩
  · intro h0 hlen
    have hc : canUnpack r.data r.position 1 = false := by
      rw [canUnpack_eq _ _ _ h0]
      exact decide_eq_false (by omega)
    simp [BinaryReader.read_int8, hc]
  · intro h0 hlen
    have hc : canUnpack r.data r.position 2 = false := by
      rw [canUnpack_eq _ _ _ h0]
      exact decide_eq_false (by omega)
    simp [BinaryReader.read_int16, hc]
  · intro h0 hlen
    have hc : canUnpack r.data r.position 4 = false := by
      rw [canUnpack_eq _ _ _ h0]
      exact decide_eq_false (by omega)
    simp [BinaryReader.read_int32, hc]
  · intro count h
    unfold BinaryReader.skip_bytes
    rw [if_pos h]
  · intro l hne hlen
    simp only [BinaryReader.read_string, BinaryReader.read_string_len]
    rw [if_neg hne, if_pos hlen]
  · intro l r₁ h16 hne hlen
    have hpos := read_int16_ok h16
    refine ⟨?_, by rw [hpos]⟩
    simp only [BinaryReader.read_string, h16, BinaryReader.read_string_len]
    rw [if_neg hne, if_pos ?_]
    · rw [hpos] at hlen ⊢
      exact hlen
  · intro hle
    refine ⟨?_, ?_, ?_, ?_, ?_⟩
    · rcases read_int8_cases r with ⟨hc, h2⟩ | ⟨_, he⟩
      · rw [h2]
        have := canUnpack_le hc
        simp only
        omega
      · rw [he]
        exact hle
    · rcases read_int16_cases r with ⟨hc, h2⟩ | ⟨_, he⟩
      · rw [h2]
        have := canUnpack_le hc
        simp only
        omega
      · rw [he]
        exact hle
    · rcases read_int32_cases r with ⟨hc, h2⟩ | ⟨_, he⟩
      · rw [h2]
        have := canUnpack_le hc
        simp only
        omega
      · rw [he]
        exact hle
    · intro count
      unfold BinaryReader.skip_bytes
      split
      · exact hle
      · rename_i hb
        simp only
        omega
    · intro l?
      cases l? with
      | some l =>
        exact read_string_len_position l hle
      | none =>
        simp only [BinaryReader.read_string]
        rcases h16 : r.read_int16 with ⟨res, r₁⟩
        have hdata : r₁.data = r.data := by
          rcases read_int16_cases r with ⟨_, h2⟩ | ⟨_, he⟩
          · rw [h16] at h2
            simp only at h2
            rw [h2]
          · rw [he] at h16
            simp only [Prod.mk.injEq] at h16
            rw [← h16.2]
        have hposle : r₁.position ≤ (r₁.data.length : Int) := by
          rcases read_int16_cases r with ⟨hc, h2⟩ | ⟨_, he⟩
          · have := canUnpack_le hc
            rw [h16] at h2
            simp only at h2
            rw [h2]
            simp only
            omega
          · rw [he] at h16
            simp only [Prod.mk.injEq] at h16
            rw [← h16.2]
            exact hle
        cases res with
        | error e =>
          show r₁.position ≤ (r.data.length : Int)
          rw [← hdata]
          exact hposle
        | ok v =>
          show (r₁.read_string_len v).2.position ≤ (r.data.length : Int)
          rw [← hdata]
          exact read_string_len_position v hposle

/-- C4 counterexample: on the buffer `[0, 5]` the implicit-length
`read_string` fails (the prefix promises 5 bytes that are not there), yet the
reader's offset afterwards is 2, not the entry offset 0 — the operation
failed without leaving the offset unchanged. -/
theorem spec_C4_counterexample :
    BinaryReader.read_string (BinaryReader.mk [0, 5] 0 none) none =
      (.error .valueError, BinaryReader.mk [0, 5] 2 none) ∧ (2 : Int) ≠ 0 :=
  ⟨rfl, by decide⟩

/-- C4 witness: the amended statement applied at concrete readers. -/
theorem spec_C4_witness :
    BinaryReader.skip_bytes (BinaryReader.mk [0, 1, 2] 1 none) 5 =
      (.error .valueError, BinaryReader.mk [0, 1, 2] 1 none) ∧
    (BinaryReader.read_string (BinaryReader.mk [0, 5] 0 none) none).2.position ≤
      ((BinaryReader.mk [0, 5] 0 none).data.length : Int) :=
  ⟨((spec_C4_reader_bounds (BinaryReader.mk [0, 1, 2] 1 none)).1.2.2.2.1 5 (by decide)),
    ((spec_C4_reader_bounds (BinaryReader.mk [0, 5] 0 none)).2.2 (by decide) ).2.2.2.2 none⟩

/-- C3: if reading a safehouse record fails partway, the loop stops
immediately, discarding the partial record and returning exactly the
previously decoded safehouses: a successful record is appended and the loop
continues, a failing record ends the loop with the accumulator as it stands
(no later record is attempted). Concretely, a file announcing two safehouses
but ending after the first record decodes to exactly that one record. -/
theorem spec_C3_stop_at_first_failure :
    (∀ (version : Int) (n : Nat) (r : BinaryReader) (acc : List SafeHouse) (sh : SafeHouse)
        (r' : BinaryReader), readOneSafehouse version r = (.ok sh, r') →
        safehouseLoop version (n + 1) r acc = safehouseLoop version n r' (acc ++ [sh])) ∧
    (∀ (version : Int) (n : Nat) (r : BinaryReader) (acc : List SafeHouse) (e : PyError)
        (r' : BinaryReader), readOneSafehouse version r = (.error e, r') →
        safehouseLoop version (n + 1) r acc = (acc, r')) ∧
    load_safehouses metaTruncated = [shExpected] := by
  refine ⟨?_, ?_, by decide⟩
  · intro v n r acc sh r' hk
    show (match readOneSafehouse v r with
      | (.ok sh, r') => safehouseLoop v n r' (acc ++ [sh])
      | (.error _, r') => (acc, r')) = safehouseLoop v n r' (acc ++ [sh])
    rw [hk]
  · intro v n r acc e r' hk
    show (match readOneSafehouse v r with
      | (.ok sh, r') => safehouseLoop v n r' (acc ++ [sh])
      | (.error _, r') => (acc, r')) = (acc, r')
    rw [hk]

/-- C3 witness: one loop step at a record that decodes, and one at a reader
whose first read fails. -/
theorem spec_C3_witness :
    safehouseLoop 194 1 (BinaryReader.mk metaTruncated 36 none) [] =
      safehouseLoop 194 0 (BinaryReader.mk metaTruncated 107 none) ([] ++ [shExpected]) ∧
    safehouseLoop 194 1 (BinaryReader.mk [] 0 none) [] = ([], BinaryReader.mk [] 0 none) :=
  ⟨spec_C3_stop_at_first_failure.1 194 0 _ [] shExpected _ rfl,
   spec_C3_stop_at_first_failure.2.1 194 0 _ [] .valueError _ rfl⟩

/-- C9: the decoded tile region is `toTileRegion x y w h`, i.e.
`from = (x.fdiv 10, y.fdiv 10)` and `to = ((x+w+9).fdiv 10, (y+h+9).fdiv 10)`
with floor division; `(t+9).fdiv 10` is the ceiling of `t/10` for every
integer; and the spec's worked example decodes to
`from = (100, 200), to = (105, 203)`. -/
theorem spec_C9_region_conversion :
    (∀ t : Int, Int.fdiv (t + 9) 10 = ⌈(t : ℚ) / 10⌉) ∧
    (∀ (version x y w h : Int) (r r' : BinaryReader) (sh : SafeHouse),
      finishSafehouse version x y w h r = (.ok sh, r') →
      sh.region = toTileRegion x y w h) ∧
    (∀ x y w h : Int, toTileRegion x y w h =
      Region.mk (Int.fdiv x 10) (Int.fdiv y 10)
        ⌈((x + w : Int) : ℚ) / 10⌉ ⌈((y + h : Int) : ℚ) / 10⌉) ∧
    load_safehouses metaOneSafehouse = [shExpected] ∧
    shExpected.region = Region.mk 100 200 105 203 := by
  refine ⟨fdiv_add_nine, ?_, ?_, by decide, by decide⟩
  · intro version x y w h r r' sh hk
    unfold finishSafehouse at hk
    obtain ⟨a1, r1, h1, hk⟩ := rbind_ok hk
    obtain ⟨a2, r2, h2, hk⟩ := rbind_ok hk
    obtain ⟨a3, r3, h3, hk⟩ := rbind_ok hk
    obtain ⟨a4, r4, h4, hk⟩ := rbind_ok hk
    obtain ⟨a5, r5, h5, hk⟩ := rbind_ok hk
    obtain ⟨a6, r6, h6, hk⟩ := rbind_ok hk
    simp only [Prod.mk.injEq, Except.ok.injEq] at hk
    rw [← hk.1]
  · intro x y w h
    unfold toTileRegion
    rw [← fdiv_add_nine (x + w), ← fdiv_add_nine (y + h)]

/-- C9 witness: the structural clause applied at the worked example's record. -/
theorem spec_C9_witness :
    shExpected.region = toTileRegion 1000 2000 50 30 :=
  spec_C9_region_conversion.2.1 194 1000 2000 50 30
    (BinaryReader.mk metaOneSafehouse 52 none)
    (BinaryReader.mk metaOneSafehouse 107 none) shExpected rfl

/-- C10: under `version >= 194` (the only way past the early return), each
room-definition entry advances the cursor by exactly 10 bytes, each
building-definition entry by exactly 19 bytes (the `[111,121)` branch cannot
fire), the `version <= 112` early return is unreachable, and the title is
always read from the stream, never defaulted. -/
theorem spec_C10_version_ge_194 (version : Int) (hv : 194 ≤ version) :
    (∀ (r r' : BinaryReader) (u : Unit), skipRoomEntry version r = (.ok u, r') →
      r'.position = r.position + 10 ∧ r'.data = r.data) ∧
    (∀ (r r' : BinaryReader) (u : Unit), skipBuildingEntry version r = (.ok u, r') →
      r'.position = r.position + 19 ∧ r'.data = r.data) ∧
    ¬ version ≤ 112 ∧
    (∀ (owner : Bytes) (r : BinaryReader), titleStep version owner r = r.read_string none) := by
  refine ⟨?_, ?_, by omega, ?_⟩
  · intro r r' u hk
    unfold skipRoomEntry at hk
    simp only [if_neg (show ¬ version < 194 by omega),
      if_pos (show (160 : Int) ≤ version by omega)] at hk
    obtain ⟨u1, r1, h1, hk⟩ := rbind_ok hk
    have e1 := skip_bytes_ok h1
    have e2 := skip_bytes_ok hk
    subst e1
    subst e2
    exact ⟨by show r.position + 8 + 2 = r.position + 10; omega, rfl⟩
  · intro r r' u hk
    unfold skipBuildingEntry at hk
    simp only [if_pos (show (194 : Int) ≤ version from hv),
      if_pos (show (57 : Int) ≤ version by omega),
      if_pos (show (74 : Int) ≤ version by omega),
      if_pos (show (107 : Int) ≤ version by omega),
      if_neg (show ¬ ((111 : Int) ≤ version ∧ version < 121) by omega),
      if_pos (show (125 : Int) ≤ version by omega)] at hk
    obtain ⟨u1, r1, h1, hk⟩ := rbind_ok hk
    obtain ⟨u2, r2, h2, hk⟩ := rbind_ok hk
    obtain ⟨u3, r3, h3, hk⟩ := rbind_ok hk
    obtain ⟨u4, r4, h4, hk⟩ := rbind_ok hk
    obtain ⟨u5, r5, h5, hk⟩ := rbind_ok hk
    obtain ⟨u6, r6, h6, hk⟩ := rbind_ok hk
    have e1 := skip_bytes_ok h1
    have e2 := skip_bytes_ok h2
    have e3 := skip_bytes_ok h3
    have e4 := skip_bytes_ok h4
    have e5 := skip_bytes_ok h5
    have e6 : r6 = r5 := by
      simp only [Prod.mk.injEq] at h6
      exact h6.2.symm
    have e7 := skip_bytes_ok hk
    subst e1
    subst e2
    subst e3
    subst e4
    subst e5
    subst e6
    subst e7
    exact ⟨by show r.position + 8 + 1 + 4 + 1 + 1 + 4 = r.position + 19; omega, rfl⟩
  · intro owner r
    unfold titleStep
    rw [if_pos (show (101 : Int) ≤ version by omega)]

/-- C10 witness: version 194 at concrete readers. -/
theorem spec_C10_witness :
    (BinaryReader.mk (List.replicate 19 0) 10 none).position =
      (BinaryReader.mk (List.replicate 19 0) 0 none).position + 10 ∧
    (BinaryReader.mk (List.replicate 19 0) 19 none).position =
      (BinaryReader.mk (List.replicate 19 0) 0 none).position + 19 ∧
    titleStep 194 [] (BinaryReader.mk [0, 0] 0 none) =
      (BinaryReader.mk [0, 0] 0 none).read_string none :=
  ⟨((spec_C10_version_ge_194 194 (by decide)).1
      (BinaryReader.mk (List.replicate 19 0) 0 none)
      (BinaryReader.mk (List.replicate 19 0) 10 none) () rfl).1,
   ((spec_C10_version_ge_194 194 (by decide)).2.1
      (BinaryReader.mk (List.replicate 19 0) 0 none)
      (BinaryReader.mk (List.replicate 19 0) 19 none) () rfl).1,
   (spec_C10_version_ge_194 194 (by decide)).2.2.2 [] (BinaryReader.mk [0, 0] 0 none)⟩

theorem processCoord_calls_pres {m c z dry : Bool} {regs : List Region} {st : SweepState}
    {x y : Int}
    (h : ∀ e ∈ st.calls, (regs.any fun rg => rg.contains_point e.1 e.2.1) = false) :
    ∀ e ∈ (processCoord m c z dry regs st x y).calls,
      (regs.any fun rg => rg.contains_point e.1 e.2.1) = false := by
  intro e he
  by_cases hp : (regs.any fun region => region.contains_point x y) = true
  · rw [processCoord_protected_eq m c z dry st hp] at he
    exact h e he
  · rcases processCoord_calls_mem e he with hold | ⟨hx, hy⟩
    · exact h e hold
    · rw [hx, hy]
      exact Bool.eq_false_iff.mpr hp

/-- C6 (amended): provided at least one file category is enabled and the
rectangle satisfies `start_x ≤ end_x` and `start_y ≤ end_y`, the reported
`files_checked` equals `(end_x - start_x) * (end_y - start_y)` regardless of
which categories are enabled, of dry-run mode, and of how many coordinates
are protected. (With no category enabled the function returns 0 early, which
refutes the unconditional claim.) -/
theorem spec_C6_files_checked (fs : List String) (meta : Option Bytes)
    (sx sy ex ey : Int) (m c z dry prot : Bool) (pad : Int)
    (henabled : (m || c || z) = true) (hx : sx ≤ ex) (hy : sy ≤ ey) :
    ((delete_files_in_area fs meta sx sy ex ey m c z dry prot pad).files_checked : Int)
      = (ex - sx) * (ey - sy) := by
  simp only [delete_files_in_area]
  rw [if_neg (by simp [henabled])]
  rw [foldl_checked_outer]
  rw [intRange_length, intRange_length]
  simp only [initSweep]
  push_cast
  rw [Int.toNat_of_nonneg (by omega), Int.toNat_of_nonneg (by omega)]
  ring

/-- C6 counterexample: with no category enabled, a 1-by-1 rectangle reports
`files_checked = 0`, not `(1-0)*(1-0) = 1`. -/
theorem spec_C6_counterexample :
    ¬ (((delete_files_in_area [] none 0 0 1 1 false false false false true 4).files_checked
        : Int) = ((1 : Int) - 0) * ((1 : Int) - 0)) := by
  decide

/-- C6 witness: a 2-by-3 sweep with map data enabled checks 6 coordinates. -/
theorem spec_C6_witness :
    ((delete_files_in_area [] none 0 0 2 3 true false false true true 4).files_checked : Int)
      = ((2 : Int) - 0) * ((3 : Int) - 0) :=
  spec_C6_files_checked [] none 0 0 2 3 true false false true true 4 (by decide) (by decide)
    (by decide)

/-- C7: within one run of `delete_files_in_area`, the performed deletions and
dry-run reports carry pairwise distinct file keys, and `files_deleted` counts
exactly those events — so a file shared by several tile coordinates is
deleted (and counted) at most once. Concretely, with only
`chunkdata_0_0.bin` on disk, sweeping `(0,0)` and `(0,1)` (both mapping to
chunk `(0,0)`) invokes the helper twice but performs and counts exactly one
deletion. -/
theorem spec_C7_no_double_deletion (fs : List String) (meta : Option Bytes)
    (sx sy ex ey : Int) (m c z dry prot : Bool) (pad : Int) :
    ((delete_files_in_area fs meta sx sy ex ey m c z dry prot pad).events.Nodup ∧
      (delete_files_in_area fs meta sx sy ex ey m c z dry prot pad).files_deleted =
        (delete_files_in_area fs meta sx sy ex ey m c z dry prot pad).events.length) ∧
    (delete_files_in_area ["chunkdata_0_0.bin"] none 0 0 1 2
        false true false false false 4).files_deleted = 1 ∧
    (delete_files_in_area ["chunkdata_0_0.bin"] none 0 0 1 2
        false true false false false 4).events = ["chunkdata_0_0.bin"] ∧
    (delete_files_in_area ["chunkdata_0_0.bin"] none 0 0 1 2
        false true false false false 4).calls.length = 2 := by
  refine ⟨?_, by decide, by decide, by decide⟩
  have hinit : SweepInv (initSweep fs) := ⟨List.nodup_nil, rfl, fun k => by simp [initSweep]⟩
  have hinv : SweepInv (delete_files_in_area fs meta sx sy ex ey m c z dry prot pad) := by
    simp only [delete_files_in_area]
    split
    · exact hinit
    · exact foldl_inv _ SweepInv
        (fun st x hst => foldl_inv _ SweepInv
          (fun st' y hst' => processCoord_inv m c z dry _ x y hst') _ st hst)
        _ _ hinit
  exact ⟨hinv.1, hinv.2.1⟩

/-- C1: a swept coordinate lying inside at least one region of the exclusion
index is never passed to the deletion helper for any enabled category — its
processing step performs no helper call, no deletion event, and leaves the
deleted counter unchanged while incrementing the protected counter exactly
once — and, run-wide, every helper invocation recorded by
`delete_files_in_area` is for a coordinate outside every region of the
exclusion index. -/
theorem spec_C1_protected_coordinates :
    (∀ (m c z dry : Bool) (regs : List Region) (st : SweepState) (x y : Int),
      (regs.any fun region => region.contains_point x y) = true →
      processCoord m c z dry regs st x y =
        { st with
          files_checked := st.files_checked + 1
          files_protected := st.files_protected + 1 }) ∧
    (∀ (fs : List String) (meta : Option Bytes) (sx sy ex ey : Int)
        (m c z dry prot : Bool) (pad : Int) (x y : Int) (fn : String),
      (x, y, fn) ∈ (delete_files_in_area fs meta sx sy ex ey m c z dry prot pad).calls →
      ((excludedRegionsOf prot meta pad).any fun region =>
        region.contains_point x y) = false) := by
  constructor
  · intro m c z dry regs st x y h
    exact processCoord_protected_eq m c z dry st h
  · intro fs meta sx sy ex ey m c z dry prot pad x y fn hmem
    have key : ∀ e ∈ (delete_files_in_area fs meta sx sy ex ey m c z dry prot pad).calls,
        ((excludedRegionsOf prot meta pad).any fun rg =>
          rg.contains_point e.1 e.2.1) = false := by
      simp only [delete_files_in_area]
      split
      · intro e he
        simp [initSweep] at he
      · refine foldl_inv _
          (fun (st : SweepState) => ∀ e ∈ st.calls,
            ((excludedRegionsOf prot meta pad).any fun rg =>
              rg.contains_point e.1 e.2.1) = false) ?_ _ _ ?_
        · intro a b ha
          refine foldl_inv _
            (fun (st : SweepState) => ∀ e ∈ st.calls,
              ((excludedRegionsOf prot meta pad).any fun rg =>
                rg.contains_point e.1 e.2.1) = false) ?_ _ _ ha
          intro a' b' ha'
          exact processCoord_calls_pres ha'
        · intro e he
          simp [initSweep] at he
    simpa using key (x, y, fn) hmem

/-- C1 witness: a protected coordinate's step at a concrete state, and a
concrete run whose only helper call is for an unprotected coordinate. -/
theorem spec_C1_witness :
    (([Region.mk 0 0 2 2].any fun region => region.contains_point 1 1) = true ∧
      processCoord true false false false [Region.mk 0 0 2 2] (initSweep []) 1 1 =
        { initSweep [] with files_checked := 1, files_protected := 1 }) ∧
    ((5, 5, "map_5_5.bin") ∈
        (delete_files_in_area ["map_5_5.bin"] none 5 5 6 6 true false false true true 4).calls ∧
      ((excludedRegionsOf true none 4).any fun region =>
        region.contains_point 5 5) = false) :=
  ⟨⟨by decide,
    spec_C1_protected_coordinates.1 true false false false [Region.mk 0 0 2 2]
      (initSweep []) 1 1 (by decide)⟩,
   ⟨by decide,
    spec_C1_protected_coordinates.2 ["map_5_5.bin"] none 5 5 6 6 true false false true true 4
      5 5 "map_5_5.bin" (by decide)⟩⟩

end MapCleaner
